import Mathlib

deriving instance DecidableEq for Except

/-!
Shallow embedding of the binary message decoder of the `moon` repository
(`src/message.go`, with the older variant of `PairData.UnmarshalBinary`
from `src/main.go` embedded under the `MainGo` namespace).

Bytes are `Nat`s, byte buffers are `List Nat`, Go strings built from byte
slices are kept as raw byte lists.  Go's `(value, error)` returns become
`Except DecodeError`.  Every Go slice or index operation that can panic is
routed through a checked primitive whose failure branch yields the
distinguished `DecodeError.outOfBounds` value; proving that branch
unreachable is the formal counterpart of "no read past `buffer.length`".
-/

/-- Errors of the decoder.  Each variant models one of the Go `errors.New` /
`fmt.Errorf` values; `outOfBounds` models a Go slice/index panic or an
out-of-bounds memory access, which is not a returned error in Go and must be
proven unreachable for the checked decoder. -/
inductive DecodeError where
  | emptyMessage
  | unknownMessageType (tag : Nat)
  | insufficientDataLBH
  | invalidVersionString
  | insufficientDataPairs
  | insufficientDataPairData
  | invalidString
  | insufficientDataPriceVolume
  | invalidTokenName
  | invalidTokenSymbol
  | invalidBaseTokenSymbol
  | outOfBounds
  deriving DecidableEq, Repr

/-- `strings.IndexByte(string(l), b)` : index of the first occurrence of `b`
in `l`, `none` for Go's `-1`. -/
def indexByte : List Nat → Nat → Option Nat
  | [], _ => none
  | c :: rest, b => if c = b then some 0 else (indexByte rest b).map (· + 1)

/-- Checked embedding of the Go slice expression `data[i:]` (panics when
`i > len(data)`). -/
def sliceFrom (data : List Nat) (i : Nat) : Except DecodeError (List Nat) :=
  if i ≤ data.length then .ok (data.drop i) else .error .outOfBounds

/-- Checked embedding of the Go slice expression `data[i:j]` (panics unless
`i ≤ j ≤ len(data)`). -/
def sliceRange (data : List Nat) (i j : Nat) : Except DecodeError (List Nat) :=
  if i ≤ j ∧ j ≤ data.length then .ok ((data.take j).drop i) else .error .outOfBounds

/-- Little-endian 32-bit value assembled from the first 4 bytes of `l`. -/
def le32 (l : List Nat) : Nat :=
  l.getD 0 0 + 256 * l.getD 1 0 + 65536 * l.getD 2 0 + 16777216 * l.getD 3 0

/-- Little-endian 64-bit value assembled from the first 8 bytes of `l`.
`float64` fields keep this raw IEEE-754 bit pattern; the decoder never
interprets it numerically. -/
def le64 (l : List Nat) : Nat :=
  l.getD 0 0 + 256 * l.getD 1 0 + 65536 * l.getD 2 0 + 16777216 * l.getD 3 0 +
    4294967296 * l.getD 4 0 + 1099511627776 * l.getD 5 0 +
    281474976710656 * l.getD 6 0 + 72057594037927936 * l.getD 7 0

/-- Checked embedding of `binary.LittleEndian.Uint32(data[i : i+4])`. -/
def readUint32At (data : List Nat) (i : Nat) : Except DecodeError Nat :=
  if i + 4 ≤ data.length then .ok (le32 (data.drop i)) else .error .outOfBounds

/-- Checked embedding of `binary.LittleEndian.Uint64(data[i:])`, which reads
bytes `i .. i+7` and panics when fewer than 8 bytes remain. -/
def readUint64At (data : List Nat) (i : Nat) : Except DecodeError Nat :=
  if i + 8 ≤ data.length then .ok (le64 (data.drop i)) else .error .outOfBounds

/-- `PingMessage` of `src/message.go`. -/
structure PingMessage where
  Content : List Nat
  deriving DecidableEq, Repr

/-- `LatestBlockHashMessage` of `src/message.go`. -/
structure LatestBlockHashMessage where
  Version : List Nat
  Endpoint : List Nat
  LatestBlock : Nat
  Hash : List Nat
  deriving DecidableEq, Repr

/-- `PairData` of `src/message.go`. -/
structure PairData where
  PairAddress : List Nat
  UnknownData : List Nat
  TokenName : List Nat
  TokenSymbol : List Nat
  BaseTokenSymbol : List Nat
  Price : Nat
  Volume : Nat
  deriving DecidableEq, Repr

/-- `PairsMessage` of `src/message.go`. -/
structure PairsMessage where
  Version : List Nat
  Pairs : List PairData
  deriving DecidableEq, Repr

/-- The result of a successful `parseMessage` call: which decoder ran and
the structured record it produced. -/
inductive Message where
  | latestBlockHash (m : LatestBlockHashMessage)
  | pairs (m : PairsMessage)
  | ping (m : PingMessage)
  deriving DecidableEq, Repr

/-- `PingMessage.UnmarshalBinary` (`src/message.go:33-36`):
`m.Content = string(data)`. -/
def PingMessage.UnmarshalBinary (data : List Nat) : Except DecodeError PingMessage :=
  .ok ⟨data⟩

/-- `LatestBlockHashMessage.UnmarshalBinary` (`src/message.go:38-62`). -/
def LatestBlockHashMessage.UnmarshalBinary (data : List Nat) :
    Except DecodeError LatestBlockHashMessage :=
  if data.length < 36 then .error .insufficientDataLBH
  else
    match sliceFrom data 2 with
    | .error e => .error e
    | .ok tail2 =>
      match indexByte tail2 0 with
      | none => .error .invalidVersionString
      | some versionEnd =>
        match sliceRange data 2 (2 + versionEnd) with
        | .error e => .error e
        | .ok version =>
          let endpointStart := 2 + versionEnd + 1
          match sliceFrom data endpointStart with
          | .error e => .error e
          | .ok tailE =>
            let endpointRes : Except DecodeError (List Nat) :=
              match indexByte tailE 0 with
              | none => .ok []
              | some endpointEnd =>
                  sliceRange data endpointStart (endpointStart + endpointEnd)
            match endpointRes with
            | .error e => .error e
            | .ok endpoint =>
              let hashStart := data.length - 36
              match readUint32At data hashStart with
              | .error e => .error e
              | .ok latestBlock =>
                match sliceFrom data (hashStart + 4) with
                | .error e => .error e
                | .ok hashTail =>
                  -- copy(m.Hash[:], data[hashStart+4:]) into a zeroed [32]byte
                  .ok ⟨version, endpoint, latestBlock,
                       (hashTail ++ List.replicate 32 0).take 32⟩

/-- The `readString` closure of `PairData.UnmarshalBinary`
(`src/message.go:117-124`): scan `data[current:]` for a zero byte, return
the bytes before it and the cursor just past the terminator. -/
def readString (data : List Nat) (current : Nat) :
    Except DecodeError (List Nat × Nat) :=
  match sliceFrom data current with
  | .error e => .error e
  | .ok tail =>
    match indexByte tail 0 with
    | none => .error .invalidString
    | some e =>
      match sliceRange data current (current + e) with
      | .error err => .error err
      | .ok s => .ok (s, current + e + 1)

/-- `PairData.UnmarshalBinary` (`src/message.go:106-155`): 64 fixed bytes,
three C strings, then a 16-byte guarded read of two little-endian
`float64` bit patterns; returns the record and the bytes consumed. -/
def PairData.UnmarshalBinary (data : List Nat) :
    Except DecodeError (PairData × Nat) :=
  if data.length < 64 then .error .insufficientDataPairData
  else
    match sliceRange data 0 32 with
    | .error e => .error e
    | .ok pairAddress =>
      match sliceRange data 32 64 with
      | .error e => .error e
      | .ok unknownData =>
        match readString data 64 with
        | .error e => .error e
        | .ok (tokenName, c1) =>
          match readString data c1 with
          | .error e => .error e
          | .ok (tokenSymbol, c2) =>
            match readString data c2 with
            | .error e => .error e
            | .ok (baseTokenSymbol, c3) =>
              match sliceFrom data c3 with
              | .error e => .error e
              | .ok rem =>
                if rem.length < 16 then .error .insufficientDataPriceVolume
                else
                  match readUint64At data c3 with
                  | .error e => .error e
                  | .ok price =>
                    match readUint64At data (c3 + 8) with
                    | .error e => .error e
                    | .ok volume =>
                      .ok (⟨pairAddress, unknownData, tokenName, tokenSymbol,
                            baseTokenSymbol, price, volume⟩, c3 + 16)

/-- The `for len(pairsData) >= 64` loop of `PairsMessage.UnmarshalBinary`
(`src/message.go:93-101`), with an explicit fuel argument as termination
device; each successful iteration consumes at least 80 bytes, so any fuel
of at least `pairsData.length` gives the loop's exact behaviour. -/
def decodePairsLoopF : Nat → List Nat → Except DecodeError (List PairData)
  | 0, _ => .ok []
  | fuel + 1, pairsData =>
    if pairsData.length < 64 then .ok []
    else
      match PairData.UnmarshalBinary pairsData with
      | .error e => .error e
      | .ok (pair, bytesRead) =>
        match sliceFrom pairsData bytesRead with
        | .error e => .error e
        | .ok rest =>
          match decodePairsLoopF fuel rest with
          | .error e => .error e
          | .ok pairs => .ok (pair :: pairs)

/-- The pair-record loop run with sufficient fuel. -/
def decodePairsLoop (pairsData : List Nat) : Except DecodeError (List PairData) :=
  decodePairsLoopF pairsData.length pairsData

/-- `PairsMessage.UnmarshalBinary` (`src/message.go:79-104`). -/
def PairsMessage.UnmarshalBinary (data : List Nat) :
    Except DecodeError PairsMessage :=
  if data.length < 11 then .error .insufficientDataPairs
  else
    match sliceFrom data 2 with
    | .error e => .error e
    | .ok tail2 =>
      match indexByte tail2 0 with
      | none => .error .invalidVersionString
      | some versionEnd =>
        match sliceRange data 2 (2 + versionEnd) with
        | .error e => .error e
        | .ok version =>
          match sliceFrom data (2 + versionEnd + 1) with
          | .error e => .error e
          | .ok pairsData =>
            match decodePairsLoop pairsData with
            | .error e => .error e
            | .ok pairs => .ok ⟨version, pairs⟩

/-- `parseMessage` (`src/message.go:157-194`): dispatch on the tag byte
`message[0]`; each decoder receives the full frame, exactly as at the Go
call sites. -/
def parseMessage (message : List Nat) : Except DecodeError Message :=
  if message.length = 0 then .error .emptyMessage
  else
    match message.head? with
    | none => .error .outOfBounds
    | some tag =>
      if tag = 2 then
        Except.map Message.latestBlockHash (LatestBlockHashMessage.UnmarshalBinary message)
      else if tag = 0 then
        Except.map Message.pairs (PairsMessage.UnmarshalBinary message)
      else if tag = 34 then
        Except.map Message.ping (PingMessage.UnmarshalBinary message)
      else .error (.unknownMessageType tag)

/-- `true` unless the result is the `outOfBounds` sentinel, i.e. unless a
Go slice/index panic or out-of-bounds memory access was reached. -/
def noOob {α : Type} : Except DecodeError α → Bool
  | .error .outOfBounds => false
  | _ => true

namespace MainGo

/-- `PairData` of the first (older) program variant in `src/main.go`. -/
structure PairData where
  PairAddress : List Nat
  TokenName : List Nat
  TokenSymbol : List Nat
  BaseTokenSymbol : List Nat
  Price : Nat
  Volume : Nat
  deriving DecidableEq, Repr

/-- `PairData.UnmarshalBinary` of the first variant in `src/main.go`
(lines 95-127).  The price/volume reads there are
`*(*float64)(unsafe.Pointer(&data[priceStart]))`: Go bounds-checks only the
single index taken by `&`, then loads 8 bytes unchecked.  The embedding
keeps the index checks Go performs and flags the unchecked 8-byte span with
`outOfBounds` whenever it leaves the buffer. -/
def PairData.UnmarshalBinary (data : List Nat) :
    Except DecodeError (PairData × Nat) :=
  if data.length < 64 then .error .insufficientDataPairData
  else
    let pairAddress := data.take 32
    match indexByte (data.drop 32) 0 with
    | none => .error .invalidTokenName
    | some nameEnd =>
      let tokenName := (data.drop 32).take nameEnd
      let symbolStart := 32 + nameEnd + 1
      match indexByte (data.drop symbolStart) 0 with
      | none => .error .invalidTokenSymbol
      | some symbolEnd =>
        let tokenSymbol := (data.drop symbolStart).take symbolEnd
        let baseSymbolStart := symbolStart + symbolEnd + 1
        match indexByte (data.drop baseSymbolStart) 0 with
        | none => .error .invalidBaseTokenSymbol
        | some baseSymbolEnd =>
          let baseTokenSymbol := (data.drop baseSymbolStart).take baseSymbolEnd
          let priceStart := baseSymbolStart + baseSymbolEnd + 1
          if priceStart < data.length then
            if priceStart + 8 ≤ data.length then
              let price := le64 (data.drop priceStart)
              if priceStart + 8 < data.length then
                if priceStart + 16 ≤ data.length then
                  .ok (⟨pairAddress, tokenName, tokenSymbol, baseTokenSymbol,
                        price, le64 (data.drop (priceStart + 8))⟩, priceStart + 16)
                else .error .outOfBounds
              else .error .outOfBounds
            else .error .outOfBounds
          else .error .outOfBounds

end MainGo

/-- A 64-byte pair record for the `MainGo` decoder: 32 address bytes, a
15-byte token name, two empty symbols, leaving `priceStart = 50`, so the
price read fits but the volume read spans bytes 58..65 of a 64-byte
buffer. -/
def c1record : List Nat :=
  List.replicate 32 1 ++ (List.replicate 15 97 ++ [0, 0, 0]) ++ List.replicate 14 1

/-- An 83-byte pair record: 64 fixed bytes, three empty strings, 16 bytes
of price/volume. -/
def pd83 : List Nat := List.replicate 83 0

/-- The record `PairData.UnmarshalBinary` decodes from `pd83`. -/
def rec83 : PairData :=
  ⟨List.replicate 32 0, List.replicate 32 0, [], [], [], 0, 0⟩

/-- A 44-byte block-hash frame: tag `0x02`, empty version, then the bytes
`"ab\0cd"` before the 36-byte trailer of `1`s.  The region between the end
of the version string and the trailer is `[97, 98, 0, 99, 100]`, but the
decoder's endpoint scan stops at the embedded zero byte. -/
def c6frame : List Nat := [2, 9, 0, 97, 98, 0, 99, 100] ++ List.replicate 36 1

/-- The message decoded from `c6frame`. -/
def c6msg : LatestBlockHashMessage := ⟨[], [97, 98], 16843009, List.replicate 32 1⟩

/-! ## Basic facts about the primitive readers -/

theorem indexByte_some_lt {l : List Nat} {b i : Nat} (h : indexByte l b = some i) :
    i < l.length := by
  induction l generalizing i with
  | nil => simp [indexByte] at h
  | cons c rest ih =>
    simp only [indexByte] at h
    split at h
    · cases h; simp
    · cases hr : indexByte rest b with
      | none => rw [hr] at h; simp at h
      | some j =>
        rw [hr] at h
        simp only [Option.map_some'] at h
        cases h
        have := ih hr
        simp only [List.length_cons]
        omega

theorem indexByte_some_get {l : List Nat} {b i : Nat} (h : indexByte l b = some i) :
    l[i]? = some b := by
  induction l generalizing i with
  | nil => simp [indexByte] at h
  | cons c rest ih =>
    simp only [indexByte] at h
    split at h
    · rename_i hc
      cases h
      simp [hc]
    · cases hr : indexByte rest b with
      | none => rw [hr] at h; simp at h
      | some j =>
        rw [hr] at h
        simp only [Option.map_some'] at h
        cases h
        simpa using ih hr

theorem indexByte_some_first {l : List Nat} {b i : Nat} (h : indexByte l b = some i) :
    ∀ j, j < i → l[j]? ≠ some b := by
  induction l generalizing i with
  | nil => simp [indexByte] at h
  | cons c rest ih =>
    simp only [indexByte] at h
    split at h
    · cases h; omega
    · rename_i hc
      cases hr : indexByte rest b with
      | none => rw [hr] at h; simp at h
      | some j =>
        rw [hr] at h
        simp only [Option.map_some'] at h
        cases h
        intro k hk
        cases k with
        | zero => simpa using hc
        | succ k =>
          simpa using ih hr k (by omega)

theorem indexByte_eq_some_of {l : List Nat} {b i : Nat} (hget : l[i]? = some b)
    (hmin : ∀ j, j < i → l[j]? ≠ some b) : indexByte l b = some i := by
  induction l generalizing i with
  | nil => simp at hget
  | cons c rest ih =>
    cases i with
    | zero =>
      simp only [List.getElem?_cons_zero, Option.some.injEq] at hget
      simp [indexByte, hget]
    | succ k =>
      have hc : ¬ c = b := by
        intro hcb
        exact hmin 0 (by omega) (by simp [hcb])
      simp only [List.getElem?_cons_succ] at hget
      have hmin' : ∀ j, j < k → rest[j]? ≠ some b := by
        intro j hj
        have := hmin (j + 1) (by omega)
        simpa using this
      simp [indexByte, hc, ih hget hmin']

theorem indexByte_eq_none_of {l : List Nat} {b : Nat}
    (h : ∀ j : Nat, l[j]? ≠ some b) : indexByte l b = none := by
  induction l with
  | nil => rfl
  | cons c rest ih =>
    have hc : ¬ c = b := by
      intro hcb
      exact h 0 (by simp [hcb])
    have h' : ∀ j : Nat, rest[j]? ≠ some b := by
      intro j
      have := h (j + 1)
      simpa using this
    simp [indexByte, hc, ih h']

theorem sliceFrom_ok {data : List Nat} {i : Nat} (h : i ≤ data.length) :
    sliceFrom data i = .ok (data.drop i) := by
  simp [sliceFrom, h]

theorem sliceRange_ok {data : List Nat} {i j : Nat} (h1 : i ≤ j) (h2 : j ≤ data.length) :
    sliceRange data i j = .ok ((data.take j).drop i) := by
  simp [sliceRange, h1, h2]

theorem readUint32At_ok {data : List Nat} {i : Nat} (h : i + 4 ≤ data.length) :
    readUint32At data i = .ok (le32 (data.drop i)) := by
  simp [readUint32At, h]

theorem readUint64At_ok {data : List Nat} {i : Nat} (h : i + 8 ≤ data.length) :
    readUint64At data i = .ok (le64 (data.drop i)) := by
  simp [readUint64At, h]

/-! ## The C-string reader -/

theorem readString_ok {data : List Nat} {c i : Nat} (hc : c ≤ data.length)
    (h : indexByte (data.drop c) 0 = some i) :
    readString data c = .ok ((data.drop c).take i, c + i + 1) := by
  have hlt : i < (data.drop c).length := indexByte_some_lt h
  rw [List.length_drop] at hlt
  unfold readString
  rw [sliceFrom_ok hc]
  dsimp only
  rw [h]
  dsimp only
  rw [sliceRange_ok (by omega) (by omega)]
  dsimp only
  rw [List.drop_take]
  congr 3
  omega

theorem readString_err {data : List Nat} {c : Nat} (hc : c ≤ data.length)
    (h : indexByte (data.drop c) 0 = none) :
    readString data c = .error .invalidString := by
  unfold readString
  rw [sliceFrom_ok hc]
  dsimp only
  rw [h]

theorem readString_ok_bounds {data : List Nat} {c : Nat} {s : List Nat} {next : Nat}
    (h : readString data c = .ok (s, next)) : c < next ∧ next ≤ data.length := by
  by_cases hc : c ≤ data.length
  · cases hi : indexByte (data.drop c) 0 with
    | none => rw [readString_err hc hi] at h; cases h
    | some i =>
      have hlt : i < (data.drop c).length := indexByte_some_lt hi
      rw [List.length_drop] at hlt
      rw [readString_ok hc hi] at h
      cases h
      omega
  · unfold readString sliceFrom at h
    rw [if_neg hc] at h
    cases h

theorem noOob_error_cast {α β : Type} {e : DecodeError}
    (h : noOob (.error e : Except DecodeError α) = true) :
    noOob (.error e : Except DecodeError β) = true := by
  cases e <;> first | rfl | exact h

theorem readString_noOob {data : List Nat} {c : Nat} (hc : c ≤ data.length) :
    noOob (readString data c) = true := by
  cases hi : indexByte (data.drop c) 0 with
  | none => rw [readString_err hc hi]; rfl
  | some i => rw [readString_ok hc hi]; rfl

/-! ## The pair-record decoder -/

theorem pairData_lt {data : List Nat} (h : data.length < 64) :
    PairData.UnmarshalBinary data = .error .insufficientDataPairData := by
  unfold PairData.UnmarshalBinary
  rw [if_pos h]

theorem pairData_ok_spec {data : List Nat} {p : PairData} {n : Nat}
    (h : PairData.UnmarshalBinary data = .ok (p, n)) :
    64 ≤ data.length ∧ p.PairAddress = data.take 32 ∧
    p.UnknownData = (data.take 64).drop 32 ∧
    ∃ c1 c2 c3,
      readString data 64 = .ok (p.TokenName, c1) ∧
      readString data c1 = .ok (p.TokenSymbol, c2) ∧
      readString data c2 = .ok (p.BaseTokenSymbol, c3) ∧
      c3 + 16 ≤ data.length ∧
      p.Price = le64 (data.drop c3) ∧
      p.Volume = le64 (data.drop (c3 + 8)) ∧
      n = c3 + 16 := by
  unfold PairData.UnmarshalBinary at h
  split at h
  · simp at h
  · rename_i hlen
    have h64 : 64 ≤ data.length := by omega
    rw [sliceRange_ok (by omega) (by omega), sliceRange_ok (by omega) (by omega)] at h
    dsimp only at h
    cases h1 : readString data 64 with
    | error e => rw [h1] at h; simp at h
    | ok pr1 =>
      obtain ⟨tokenName, c1⟩ := pr1
      rw [h1] at h
      dsimp only at h
      cases h2 : readString data c1 with
      | error e => rw [h2] at h; simp at h
      | ok pr2 =>
        obtain ⟨tokenSymbol, c2⟩ := pr2
        rw [h2] at h
        dsimp only at h
        cases h3 : readString data c2 with
        | error e => rw [h3] at h; simp at h
        | ok pr3 =>
          obtain ⟨baseTokenSymbol, c3⟩ := pr3
          rw [h3] at h
          dsimp only at h
          obtain ⟨hc2lt, hc3le⟩ := readString_ok_bounds h3
          rw [sliceFrom_ok hc3le] at h
          dsimp only at h
          split at h
          · simp at h
          · rename_i hrem
            rw [List.length_drop] at hrem
            have h16 : c3 + 16 ≤ data.length := by omega
            rw [readUint64At_ok (by omega), readUint64At_ok (by omega)] at h
            dsimp only at h
            cases h
            exact ⟨h64, rfl, rfl, c1, c2, c3, rfl, h2, h3, h16, rfl, rfl, rfl⟩

theorem pairData_ok_bounds {data : List Nat} {p : PairData} {n : Nat}
    (h : PairData.UnmarshalBinary data = .ok (p, n)) :
    0 < n ∧ n ≤ data.length := by
  obtain ⟨-, -, -, c1, c2, c3, -, -, -, h16, -, -, hn⟩ := pairData_ok_spec h
  subst hn
  omega

theorem pairData_noOob (data : List Nat) :
    noOob (PairData.UnmarshalBinary data) = true := by
  unfold PairData.UnmarshalBinary
  split
  · rfl
  · rename_i hlen
    rw [sliceRange_ok (by omega) (by omega), sliceRange_ok (by omega) (by omega)]
    dsimp only
    cases h1 : readString data 64 with
    | error e =>
      have hno := @readString_noOob data 64 (by omega)
      rw [h1] at hno
      dsimp only
      exact noOob_error_cast hno
    | ok pr1 =>
      obtain ⟨s1, c1⟩ := pr1
      obtain ⟨-, hc1⟩ := readString_ok_bounds h1
      dsimp only
      cases h2 : readString data c1 with
      | error e =>
        have hno := readString_noOob hc1
        rw [h2] at hno
        dsimp only
        exact noOob_error_cast hno
      | ok pr2 =>
        obtain ⟨s2, c2⟩ := pr2
        obtain ⟨-, hc2⟩ := readString_ok_bounds h2
        dsimp only
        cases h3 : readString data c2 with
        | error e =>
          have hno := readString_noOob hc2
          rw [h3] at hno
          dsimp only
          exact noOob_error_cast hno
        | ok pr3 =>
          obtain ⟨s3, c3⟩ := pr3
          obtain ⟨-, hc3⟩ := readString_ok_bounds h3
          dsimp only
          rw [sliceFrom_ok hc3]
          dsimp only
          split
          · rfl
          · rename_i hrem
            rw [List.length_drop] at hrem
            rw [readUint64At_ok (by omega), readUint64At_ok (by omega)]
            rfl

/-! ## The pair-batch loop -/

theorem decodePairsLoopF_congr : ∀ (f g : Nat) (d : List Nat),
    d.length ≤ f → d.length ≤ g → decodePairsLoopF f d = decodePairsLoopF g d := by
  intro f
  induction f with
  | zero =>
    intro g d hf hg
    have hd : d.length = 0 := by omega
    cases g with
    | zero => rfl
    | succ g =>
      simp only [decodePairsLoopF]
      rw [if_pos (by omega)]
  | succ f ih =>
    intro g d hf hg
    cases g with
    | zero =>
      have hd : d.length = 0 := by omega
      simp only [decodePairsLoopF]
      rw [if_pos (by omega)]
    | succ g =>
      simp only [decodePairsLoopF]
      by_cases h64 : d.length < 64
      · rw [if_pos h64, if_pos h64]
      · rw [if_neg h64, if_neg h64]
        cases hp : PairData.UnmarshalBinary d with
        | error e => rfl
        | ok pr =>
          obtain ⟨pair, bytesRead⟩ := pr
          obtain ⟨hpos, hle⟩ := pairData_ok_bounds hp
          dsimp only
          rw [sliceFrom_ok hle]
          dsimp only
          rw [ih g (d.drop bytesRead) (by rw [List.length_drop]; omega)
              (by rw [List.length_drop]; omega)]

theorem decodePairsLoop_step {d : List Nat} (h64 : 64 ≤ d.length) :
    decodePairsLoop d =
      match PairData.UnmarshalBinary d with
      | .error e => .error e
      | .ok (pair, bytesRead) =>
          Except.map (pair :: ·) (decodePairsLoop (d.drop bytesRead)) := by
  unfold decodePairsLoop
  obtain ⟨k, hk⟩ : ∃ k, d.length = k + 1 := ⟨d.length - 1, by omega⟩
  rw [hk]
  simp only [decodePairsLoopF]
  rw [if_neg (by omega)]
  cases hp : PairData.UnmarshalBinary d with
  | error e => rfl
  | ok pr =>
    obtain ⟨pair, bytesRead⟩ := pr
    obtain ⟨hpos, hle⟩ := pairData_ok_bounds hp
    dsimp only
    rw [sliceFrom_ok hle]
    dsimp only
    rw [decodePairsLoopF_congr k (d.drop bytesRead).length (d.drop bytesRead)
        (by rw [List.length_drop]; omega) (le_refl _)]
    cases decodePairsLoopF (d.drop bytesRead).length (d.drop bytesRead) with
    | error e => rfl
    | ok pairs => rfl

theorem decodePairsLoop_small {d : List Nat} (h : d.length < 64) :
    decodePairsLoop d = .ok [] := by
  unfold decodePairsLoop
  cases hl : d.length with
  | zero => rfl
  | succ k =>
    simp only [decodePairsLoopF]
    rw [if_pos h]

theorem decodePairsLoopF_noOob : ∀ (f : Nat) (d : List Nat),
    noOob (decodePairsLoopF f d) = true := by
  intro f
  induction f with
  | zero => intro d; rfl
  | succ f ih =>
    intro d
    simp only [decodePairsLoopF]
    split
    · rfl
    · cases hp : PairData.UnmarshalBinary d with
      | error e =>
        have hno := pairData_noOob d
        rw [hp] at hno
        dsimp only
        exact noOob_error_cast hno
      | ok pr =>
        obtain ⟨pair, bytesRead⟩ := pr
        obtain ⟨hpos, hle⟩ := pairData_ok_bounds hp
        dsimp only
        rw [sliceFrom_ok hle]
        dsimp only
        cases hl : decodePairsLoopF f (d.drop bytesRead) with
        | error e =>
          have hno := ih (d.drop bytesRead)
          rw [hl] at hno
          dsimp only
          exact noOob_error_cast hno
        | ok l => rfl

/-! ## Message-level decoders never reach an out-of-bounds read -/

theorem decodePairsLoop_noOob (d : List Nat) : noOob (decodePairsLoop d) = true :=
  decodePairsLoopF_noOob d.length d

theorem noOob_map {α β : Type} (f : α → β) (r : Except DecodeError α) :
    noOob (Except.map f r) = noOob r := by
  cases r with
  | error e => cases e <;> rfl
  | ok a => rfl

theorem pairsMessage_noOob (data : List Nat) :
    noOob (PairsMessage.UnmarshalBinary data) = true := by
  unfold PairsMessage.UnmarshalBinary
  split
  · rfl
  · rename_i hlen
    rw [sliceFrom_ok (by omega)]
    dsimp only
    cases hv : indexByte (data.drop 2) 0 with
    | none => rfl
    | some v =>
      have hvlt := indexByte_some_lt hv
      rw [List.length_drop] at hvlt
      dsimp only
      rw [sliceRange_ok (by omega) (by omega)]
      dsimp only
      rw [sliceFrom_ok (by omega)]
      dsimp only
      cases hl : decodePairsLoop (data.drop (2 + v + 1)) with
      | error e =>
        have hno : noOob (decodePairsLoop (data.drop (2 + v + 1))) = true :=
          decodePairsLoopF_noOob _ _
        rw [hl] at hno
        dsimp only
        exact noOob_error_cast hno
      | ok pairs => rfl

theorem lbh_noOob (data : List Nat) :
    noOob (LatestBlockHashMessage.UnmarshalBinary data) = true := by
  unfold LatestBlockHashMessage.UnmarshalBinary
  split
  · rfl
  · rename_i hlen
    rw [sliceFrom_ok (by omega)]
    dsimp only
    cases hv : indexByte (data.drop 2) 0 with
    | none => rfl
    | some v =>
      have hvlt := indexByte_some_lt hv
      rw [List.length_drop] at hvlt
      dsimp only
      rw [sliceRange_ok (by omega) (by omega)]
      dsimp only
      rw [sliceFrom_ok (by omega)]
      dsimp only
      cases he : indexByte (data.drop (2 + v + 1)) 0 with
      | none =>
        dsimp only
        rw [readUint32At_ok (by omega)]
        dsimp only
        rw [sliceFrom_ok (by omega)]
        rfl
      | some eEnd =>
        have helt := indexByte_some_lt he
        rw [List.length_drop] at helt
        dsimp only
        rw [sliceRange_ok (by omega) (by omega)]
        dsimp only
        rw [readUint32At_ok (by omega)]
        dsimp only
        rw [sliceFrom_ok (by omega)]
        rfl

theorem parseMessage_noOob (message : List Nat) :
    noOob (parseMessage message) = true := by
  unfold parseMessage
  cases message with
  | nil => rfl
  | cons b rest =>
    rw [if_neg (by simp)]
    simp only [List.head?_cons]
    by_cases h2 : b = 2
    · rw [if_pos h2, noOob_map]
      exact lbh_noOob _
    · rw [if_neg h2]
      by_cases h0 : b = 0
      · rw [if_pos h0, noOob_map]
        exact pairsMessage_noOob _
      · rw [if_neg h0]
        by_cases h34 : b = 34
        · rw [if_pos h34, noOob_map]
          rfl
        · rw [if_neg h34]
          rfl

/-! ## Congruence in the byte at offset 1 -/

theorem drop_congr_of_drop2 {x y : List Nat} {i : Nat}
    (hd : x.drop 2 = y.drop 2) (h : 2 ≤ i) : x.drop i = y.drop i := by
  have hi : i = 2 + (i - 2) := by omega
  rw [hi, ← List.drop_drop, ← List.drop_drop, hd]

theorem pairsUnmarshal_congr {x y : List Nat} (hlen : x.length = y.length)
    (hdrop : x.drop 2 = y.drop 2) :
    PairsMessage.UnmarshalBinary x = PairsMessage.UnmarshalBinary y := by
  unfold PairsMessage.UnmarshalBinary
  rw [hlen]
  by_cases h11 : y.length < 11
  · rw [if_pos h11, if_pos h11]
  · rw [if_neg h11, if_neg h11]
    rw [sliceFrom_ok (by omega), sliceFrom_ok (by omega : 2 ≤ y.length), hdrop]
    dsimp only
    cases hi : indexByte (y.drop 2) 0 with
    | none => rfl
    | some v =>
      have hvlt := indexByte_some_lt hi
      rw [List.length_drop] at hvlt
      dsimp only
      rw [sliceRange_ok (by omega) (by omega), sliceRange_ok (by omega) (by omega),
          List.drop_take, List.drop_take, hdrop]
      dsimp only
      rw [sliceFrom_ok (by omega), sliceFrom_ok (by omega),
          drop_congr_of_drop2 hdrop (by omega)]

theorem lbhUnmarshal_congr {x y : List Nat} (hlen : x.length = y.length)
    (hdrop : x.drop 2 = y.drop 2) (h38 : 38 ≤ y.length) :
    LatestBlockHashMessage.UnmarshalBinary x = LatestBlockHashMessage.UnmarshalBinary y := by
  unfold LatestBlockHashMessage.UnmarshalBinary
  rw [hlen, if_neg (by omega), if_neg (by omega)]
  have e1 : sliceFrom x 2 = .ok (y.drop 2) := by
    rw [sliceFrom_ok (by omega), hdrop]
  have e2 : sliceFrom y 2 = .ok (y.drop 2) := sliceFrom_ok (by omega)
  rw [e1, e2]
  dsimp only
  cases hi : indexByte (y.drop 2) 0 with
  | none => rfl
  | some v =>
    have hvlt := indexByte_some_lt hi
    rw [List.length_drop] at hvlt
    dsimp only
    have e3 : sliceRange x 2 (2 + v) = .ok ((y.drop 2).take (2 + v - 2)) := by
      rw [sliceRange_ok (by omega) (by omega), List.drop_take, hdrop]
    have e4 : sliceRange y 2 (2 + v) = .ok ((y.drop 2).take (2 + v - 2)) := by
      rw [sliceRange_ok (by omega) (by omega), List.drop_take]
    rw [e3, e4]
    dsimp only
    have e5 : sliceFrom x (2 + v + 1) = .ok (y.drop (2 + v + 1)) := by
      rw [sliceFrom_ok (by omega), drop_congr_of_drop2 hdrop (by omega)]
    have e6 : sliceFrom y (2 + v + 1) = .ok (y.drop (2 + v + 1)) :=
      sliceFrom_ok (by omega)
    rw [e5, e6]
    dsimp only
    have e7 : readUint32At x (y.length - 36) = .ok (le32 (y.drop (y.length - 36))) := by
      rw [readUint32At_ok (by omega), drop_congr_of_drop2 hdrop (by omega)]
    have e8 : readUint32At y (y.length - 36) = .ok (le32 (y.drop (y.length - 36))) :=
      readUint32At_ok (by omega)
    have e9 : sliceFrom x (y.length - 36 + 4) = .ok (y.drop (y.length - 36 + 4)) := by
      rw [sliceFrom_ok (by omega), drop_congr_of_drop2 hdrop (by omega)]
    have e10 : sliceFrom y (y.length - 36 + 4) = .ok (y.drop (y.length - 36 + 4)) :=
      sliceFrom_ok (by omega)
    cases he : indexByte (y.drop (2 + v + 1)) 0 with
    | none =>
      dsimp only
      rw [e7, e8, e9, e10]
    | some eEnd =>
      have helt := indexByte_some_lt he
      rw [List.length_drop] at helt
      dsimp only
      have e11 : sliceRange x (2 + v + 1) (2 + v + 1 + eEnd) =
          .ok ((y.drop (2 + v + 1)).take (2 + v + 1 + eEnd - (2 + v + 1))) := by
        rw [sliceRange_ok (by omega) (by omega), List.drop_take,
            drop_congr_of_drop2 hdrop (by omega)]
      have e12 : sliceRange y (2 + v + 1) (2 + v + 1 + eEnd) =
          .ok ((y.drop (2 + v + 1)).take (2 + v + 1 + eEnd - (2 + v + 1))) := by
        rw [sliceRange_ok (by omega) (by omega), List.drop_take]
      rw [e11, e12]
      dsimp only
      rw [e7, e8, e9, e10]

/-! ## Claims -/

/-- C1: for every input buffer (hence for every truncation of a valid
frame) the `src/message.go` decoder `parseMessage` never reaches an
out-of-bounds read: every slicing/indexing step is guarded and the
`outOfBounds` branch is unreachable, so the result is a decoded message or
one of the defined error values.  The second conjunct shows the claim
fails on the cited `src/main.go` variant of `PairData.UnmarshalBinary`:
on the 64-byte record `c1record` its unchecked `unsafe.Pointer` volume
read spans bytes 58..65 of the 64-byte buffer, so the out-of-bounds branch
is reached. -/
theorem c1_decoder_never_reads_out_of_bounds :
    (∀ message : List Nat, noOob (parseMessage message) = true) ∧
    MainGo.PairData.UnmarshalBinary c1record = .error .outOfBounds :=
  ⟨parseMessage_noOob, by decide⟩

/-- C2: `PairData.UnmarshalBinary` requires at least 64 bytes (else
`insufficientData`), reads the 32-byte address and the 32-byte secondary
field, then three consecutive C strings starting at offset 64, each
advancing the cursor past its terminator, then requires at least 16 more
bytes and reads price and volume as little-endian 64-bit patterns, and
returns `bytesConsumed = c3 + 16`, the final cursor position (the record
starts at offset 0 of its slice). -/
theorem c2_pair_record_decoder (data : List Nat) :
    (data.length < 64 →
      PairData.UnmarshalBinary data = .error .insufficientDataPairData) ∧
    (∀ (p : PairData) (n : Nat), PairData.UnmarshalBinary data = .ok (p, n) →
      64 ≤ data.length ∧ p.PairAddress = data.take 32 ∧
      p.UnknownData = (data.take 64).drop 32 ∧
      ∃ c1 c2 c3,
        readString data 64 = .ok (p.TokenName, c1) ∧
        readString data c1 = .ok (p.TokenSymbol, c2) ∧
        readString data c2 = .ok (p.BaseTokenSymbol, c3) ∧
        c3 + 16 ≤ data.length ∧
        p.Price = le64 (data.drop c3) ∧
        p.Volume = le64 (data.drop (c3 + 8)) ∧
        n = c3 + 16) :=
  ⟨fun h => pairData_lt h, fun _ _ h => pairData_ok_spec h⟩

/-- Witness for C2 at the concrete 83-byte record `pd83`. -/
theorem c2_pair_record_decoder_witness :
    PairData.UnmarshalBinary pd83 = .ok (rec83, 83) ∧ 64 ≤ pd83.length :=
  ⟨by decide, ((c2_pair_record_decoder pd83).2 rec83 83 (by decide)).1⟩

/-- C3 counterexample: the minimal frame of the claim — tag `0x00`,
version `"1"`, buffer ending right after the version terminator ("zero
pair records, ends exactly at the count-free cutoff") — does NOT decode
to an empty batch: the decoder's initial `len(data) < 11` check rejects
it with the pairs insufficient-data error. -/
theorem c3_counterexample :
    parseMessage [0, 0, 49, 0] = .error .insufficientDataPairs := rfl

/-- C3 amended: the pair-record loop stops cleanly with success as soon as
fewer than 64 bytes remain, and a frame with tag `0x00`, version `"1"`
and fewer than 64 bytes of (ignored) trailing data decodes to a batch
with version `"1"` and no pairs — provided the whole frame is at least
11 bytes long (at least 7 bytes after the version terminator); a shorter
frame is rejected by the `len(data) < 11` guard. -/
theorem c3_amended :
    (∀ d : List Nat, d.length < 64 → decodePairsLoop d = .ok []) ∧
    (∀ (b : Nat) (tail : List Nat), 7 ≤ tail.length → tail.length < 64 →
      parseMessage (0 :: b :: 49 :: 0 :: tail) = .ok (.pairs ⟨[49], []⟩)) := by
  constructor
  · intro d hd
    exact decodePairsLoop_small hd
  · intro b tail h7 h64
    unfold parseMessage
    rw [if_neg (by simp)]
    simp only [List.head?_cons]
    rw [if_pos trivial]
    have hp : PairsMessage.UnmarshalBinary (0 :: b :: 49 :: 0 :: tail) =
        .ok ⟨[49], []⟩ := by
      unfold PairsMessage.UnmarshalBinary
      rw [if_neg (by simp only [List.length_cons]; omega)]
      have e1 : sliceFrom (0 :: b :: 49 :: 0 :: tail) 2 = .ok (49 :: 0 :: tail) := by
        rw [sliceFrom_ok (by simp only [List.length_cons]; omega)]
        rfl
      rw [e1]
      dsimp only
      have e2 : indexByte (49 :: 0 :: tail) 0 = some 1 := by
        simp [indexByte]
      rw [e2]
      dsimp only
      have e3 : sliceRange (0 :: b :: 49 :: 0 :: tail) 2 (2 + 1) = .ok [49] := by
        rw [sliceRange_ok (by omega) (by simp only [List.length_cons]; omega)]
        rfl
      rw [e3]
      dsimp only
      have e4 : sliceFrom (0 :: b :: 49 :: 0 :: tail) (2 + 1 + 1) = .ok tail := by
        rw [sliceFrom_ok (by simp only [List.length_cons]; omega)]
        rfl
      rw [e4]
      dsimp only
      rw [decodePairsLoop_small h64]
    rw [hp]
    rfl

/-- Witness for C3's amended statement. -/
theorem c3_amended_witness :
    decodePairsLoop [] = .ok [] ∧
    parseMessage (0 :: 0 :: 49 :: 0 :: List.replicate 7 1) = .ok (.pairs ⟨[49], []⟩) :=
  ⟨c3_amended.1 [] (by decide), c3_amended.2 0 (List.replicate 7 1) (by decide) (by decide)⟩

/-- C4: batch decoding is all-or-nothing.  (1) A failing first record
aborts the loop with that record's error; (2) a successful record prepends
its value to the decode of the remaining bytes, so by induction the first
failing record's error is surfaced unchanged; (3) a loop failure aborts
`PairsMessage.UnmarshalBinary` with the same error — no partial batch is
ever returned. -/
theorem c4_all_or_nothing :
    (∀ (d : List Nat) (e : DecodeError), 64 ≤ d.length →
      PairData.UnmarshalBinary d = .error e → decodePairsLoop d = .error e) ∧
    (∀ (d : List Nat) (p : PairData) (n : Nat), 64 ≤ d.length →
      PairData.UnmarshalBinary d = .ok (p, n) →
      decodePairsLoop d = Except.map (p :: ·) (decodePairsLoop (d.drop n))) ∧
    (∀ (data : List Nat) (i : Nat) (e : DecodeError), 11 ≤ data.length →
      indexByte (data.drop 2) 0 = some i →
      decodePairsLoop (data.drop (2 + i + 1)) = .error e →
      PairsMessage.UnmarshalBinary data = .error e) := by
  refine ⟨?_, ?_, ?_⟩
  · intro d e h64 he
    rw [decodePairsLoop_step h64, he]
  · intro d p n h64 hok
    rw [decodePairsLoop_step h64, hok]
  · intro data i e h11 hidx hloop
    unfold PairsMessage.UnmarshalBinary
    rw [if_neg (by omega)]
    have hvlt := indexByte_some_lt hidx
    rw [List.length_drop] at hvlt
    rw [sliceFrom_ok (by omega)]
    dsimp only
    rw [hidx]
    dsimp only
    rw [sliceRange_ok (by omega) (by omega)]
    dsimp only
    rw [sliceFrom_ok (by omega)]
    dsimp only
    rw [hloop]

/-- Witness for C4: a 64-byte run of `1`s has no string terminator, the
first record fails, and the loop surfaces exactly that error. -/
theorem c4_all_or_nothing_witness :
    decodePairsLoop (List.replicate 64 1) = .error .invalidString :=
  c4_all_or_nothing.1 (List.replicate 64 1) .invalidString (by decide) (by decide)

/-- C5: the claim says a frame `0x22 ++ "pong"` decodes to content
`"pong"`; the code hands the ping decoder the whole frame
(`parseMessage` passes `message`, and `PingMessage.UnmarshalBinary` keeps
`string(data)` in full), so the decoded content is the five bytes
including the tag `0x22`, not `"pong"`. -/
theorem c5_ping_content_includes_tag :
    parseMessage [34, 112, 111, 110, 103] =
      .ok (.ping ⟨[34, 112, 111, 110, 103]⟩) ∧
    ([34, 112, 111, 110, 103] : List Nat) ≠ [112, 111, 110, 103] :=
  ⟨rfl, by decide⟩

/-- C6 counterexample: in `c6frame` the bytes between the end of the
version string (offset 3) and the 36-byte trailer (offset 8) are
`"ab\0cd"`, but the decoder's endpoint is the C string `"ab"` — the scan
stops at the embedded zero byte instead of taking everything up to the
trailer, so "anything between the end of the version string and the
trailer" is not what the code stores. -/
theorem c6_counterexample :
    LatestBlockHashMessage.UnmarshalBinary c6frame = .ok c6msg ∧
    (c6frame.drop 3).take (c6frame.length - 36 - 3) = [97, 98, 0, 99, 100] ∧
    c6msg.Endpoint ≠ [97, 98, 0, 99, 100] :=
  ⟨by decide, by decide, by decide⟩

/-- C6 amended: the decoder requires at least 36 bytes (else
`insufficientData`); on success `latestBlock` is the little-endian 32-bit
value at `len-36`, `hash` is exactly the last 32 bytes, the version is the
C string scanned from offset 2, and the endpoint is the C string starting
right after the version terminator — its scan stops at the first zero byte
anywhere in the rest of the buffer (possibly inside the trailer), and a
missing terminator yields the empty endpoint rather than an error. -/
theorem c6_block_heartbeat_decoder (data : List Nat) :
    (data.length < 36 →
      LatestBlockHashMessage.UnmarshalBinary data = .error .insufficientDataLBH) ∧
    (∀ m, LatestBlockHashMessage.UnmarshalBinary data = .ok m →
      36 ≤ data.length ∧
      m.LatestBlock = le32 (data.drop (data.length - 36)) ∧
      m.Hash = data.drop (data.length - 32) ∧
      m.Hash.length = 32 ∧
      ∃ vEnd, indexByte (data.drop 2) 0 = some vEnd ∧
        m.Version = (data.drop 2).take vEnd ∧
        m.Endpoint = (match indexByte (data.drop (2 + vEnd + 1)) 0 with
          | none => ([] : List Nat)
          | some eEnd => (data.drop (2 + vEnd + 1)).take eEnd)) := by
  constructor
  · intro h
    unfold LatestBlockHashMessage.UnmarshalBinary
    rw [if_pos h]
  · intro m h
    unfold LatestBlockHashMessage.UnmarshalBinary at h
    split at h
    · simp at h
    · rename_i hlen
      have h36 : 36 ≤ data.length := by omega
      rw [sliceFrom_ok (by omega)] at h
      dsimp only at h
      cases hv : indexByte (data.drop 2) 0 with
      | none => rw [hv] at h; simp at h
      | some v =>
        rw [hv] at h
        have hvlt := indexByte_some_lt hv
        rw [List.length_drop] at hvlt
        dsimp only at h
        rw [sliceRange_ok (by omega) (by omega)] at h
        dsimp only at h
        rw [sliceFrom_ok (by omega)] at h
        dsimp only at h
        have hver : (data.take (2 + v)).drop 2 = (data.drop 2).take v := by
          rw [List.drop_take]
          congr 1
          omega
        have htrail : data.length - 36 + 4 = data.length - 32 := by omega
        have hhlen : (data.drop (data.length - 32)).length = 32 := by
          rw [List.length_drop]
          omega
        have hhash : (data.drop (data.length - 36 + 4) ++ List.replicate 32 0).take 32 =
            data.drop (data.length - 32) := by
          rw [htrail]
          nth_rewrite 1 [← hhlen]
          rw [List.take_left]
        cases he : indexByte (data.drop (2 + v + 1)) 0 with
        | none =>
          rw [he] at h
          dsimp only at h
          rw [readUint32At_ok (by omega)] at h
          dsimp only at h
          rw [sliceFrom_ok (by omega)] at h
          dsimp only at h
          cases h
          refine ⟨h36, rfl, hhash, ?_, v, rfl, hver, ?_⟩
          · rw [hhash]
            exact hhlen
          · rw [he]
        | some eEnd =>
          have helt := indexByte_some_lt he
          rw [List.length_drop] at helt
          rw [he] at h
          dsimp only at h
          have hep : sliceRange data (2 + v + 1) (2 + v + 1 + eEnd) =
              .ok ((data.take (2 + v + 1 + eEnd)).drop (2 + v + 1)) :=
            sliceRange_ok (by omega) (by omega)
          rw [hep] at h
          dsimp only at h
          rw [readUint32At_ok (by omega)] at h
          dsimp only at h
          rw [sliceFrom_ok (by rw [htrail]; exact Nat.sub_le _ _)] at h
          dsimp only at h
          cases h
          refine ⟨h36, rfl, hhash, ?_, v, rfl, hver, ?_⟩
          · rw [hhash]
            exact hhlen
          · rw [he]
            dsimp only
            rw [List.drop_take]
            congr 1
            omega

/-- Witness for C6's amended statement at the concrete frame `c6frame`. -/
theorem c6_block_heartbeat_decoder_witness :
    36 ≤ c6frame.length ∧ c6msg.Hash = c6frame.drop (c6frame.length - 32) :=
  have h := (c6_block_heartbeat_decoder c6frame).2 c6msg (by decide)
  ⟨h.1, h.2.2.1⟩

/-- C7: the C-string reader at any in-range offset returns exactly the
bytes strictly before the first zero byte at or after the offset, with
`nextOffset` one past that zero byte; with no zero byte before the buffer
ends it fails with the unterminated-string error (`invalid string`), and a
terminator right at the offset yields a valid empty string. -/
theorem c7_read_cstring (data : List Nat) (off : Nat) (hoff : off ≤ data.length) :
    (∀ i : Nat, (data.drop off)[i]? = some 0 →
      (∀ j : Nat, j < i → (data.drop off)[j]? ≠ some 0) →
      readString data off = .ok ((data.drop off).take i, off + i + 1)) ∧
    ((∀ j : Nat, (data.drop off)[j]? ≠ some 0) →
      readString data off = .error .invalidString) := by
  constructor
  · intro i hget hmin
    exact readString_ok hoff (indexByte_eq_some_of hget hmin)
  · intro hnone
    exact readString_err hoff (indexByte_eq_none_of hnone)

/-- Witness for C7: terminator right at the offset gives the empty string
and advances the cursor past it. -/
theorem c7_read_cstring_witness : readString [5, 0, 7] 1 = .ok ([], 2) :=
  (c7_read_cstring [5, 0, 7] 1 (by decide)).1 0 (by decide)
    (fun j hj => absurd hj (Nat.not_lt_zero j))

/-- C8: a zero-length buffer is rejected with the empty-frame error and no
decoded message. -/
theorem c8_empty_frame : parseMessage [] = .error .emptyMessage := rfl

/-- C9: a non-empty frame whose first byte is none of the known tags
(`0x00`, `0x02`, `0x22`) yields `unknownMessageType` carrying exactly that
tag byte — never a decoded message, never a silent drop. -/
theorem c9_unknown_tag (b : Nat) (rest : List Nat)
    (h0 : b ≠ 0) (h2 : b ≠ 2) (h34 : b ≠ 34) :
    parseMessage (b :: rest) = .error (.unknownMessageType b) := by
  unfold parseMessage
  rw [if_neg (by simp)]
  simp only [List.head?_cons]
  rw [if_neg h2, if_neg h0, if_neg h34]

/-- Witness for C9 at the tag `0xFF`. -/
theorem c9_unknown_tag_witness :
    parseMessage [255] = .error (.unknownMessageType 255) :=
  c9_unknown_tag 255 [] (by decide) (by decide) (by decide)

/-- C10 counterexample: two 36-byte frames with tag `0x02` that differ
only in the byte at offset 1 decode differently, because the end-anchored
36-byte trailer of a 36-byte frame starts at offset 0 and its
little-endian `latestBlock` field covers offset 1. -/
theorem c10_counterexample :
    parseMessage (2 :: 0 :: 0 :: List.replicate 33 1) ≠
    parseMessage (2 :: 1 :: 0 :: List.replicate 33 1) := by
  decide

/-- C10 amended: the byte at offset 1 never influences the result for
pair-batch frames (tag `0x00`) of any length, and for block-heartbeat
frames (tag `0x02`) of total length at least 38, where the end-anchored
trailer cannot overlap offset 1; 36- and 37-byte heartbeat frames do read
offset 1 as part of the trailer. -/
theorem c10_offset1_not_read (a b b' : Nat) (rest : List Nat) :
    (a = 0 → parseMessage (a :: b :: rest) = parseMessage (a :: b' :: rest)) ∧
    (a = 2 → 36 ≤ rest.length →
      parseMessage (a :: b :: rest) = parseMessage (a :: b' :: rest)) := by
  constructor
  · intro ha
    subst ha
    exact congrArg (Except.map Message.pairs) (pairsUnmarshal_congr (by simp) rfl)
  · intro ha h36
    subst ha
    exact congrArg (Except.map Message.latestBlockHash)
      (lbhUnmarshal_congr (by simp) rfl (by simp only [List.length_cons]; omega))

/-- Witness for C10's amended statement. -/
theorem c10_offset1_not_read_witness :
    parseMessage [0, 7, 49, 0] = parseMessage [0, 8, 49, 0] ∧
    parseMessage (2 :: 0 :: 0 :: List.replicate 36 1) =
      parseMessage (2 :: 9 :: 0 :: List.replicate 36 1) :=
  ⟨(c10_offset1_not_read 0 7 8 [49, 0]).1 rfl,
   (c10_offset1_not_read 2 0 9 (0 :: List.replicate 36 1)).2 rfl (by decide)⟩
